import Mathlib

/-!
Shallow embedding of the virtual-memory fault-handling subsystem of a
custom xv6 kernel (files kernel/cow.c and kernel/pfault.c), together
with theorems checking the natural-language specification against it.

Machine integers are modelled as Nat (for uint64 values such as physical
addresses, timestamps and PTEs) or Int (for C int values such as member
counts and the resident-heap-page counter).  Fallible or crashing
operations (null-pointer dereference, panic) return Option: a `none`
result models a kernel fault or panic.
-/

set_option maxRecDepth 10000

/-! ## List helper lemmas (getD over set / cons) -/

theorem getD_set_self {α : Type} (l : List α) (i : Nat) (a d : α) (h : i < l.length) :
    (l.set i a).getD i d = a := by
  induction l generalizing i with
  | nil => simp at h
  | cons x t ih =>
    cases i with
    | zero => simp [List.set]
    | succ j =>
      simp only [List.set, List.getD_cons_succ]
      exact ih j (by simpa using h)

theorem getD_set_ne {α : Type} (l : List α) (i j : Nat) (a d : α) (h : i ≠ j) :
    (l.set i a).getD j d = l.getD j d := by
  induction l generalizing i j with
  | nil => simp [List.set]
  | cons x t ih =>
    cases i with
    | zero =>
      cases j with
      | zero => exact absurd rfl h
      | succ j' => simp [List.set]
    | succ i' =>
      cases j with
      | zero => simp [List.set]
      | succ j' =>
        simp only [List.set, List.getD_cons_succ]
        exact ih i' j' (fun hc => h (by omega))

/-! ## CoW Group Registry (kernel/cow.c)

`struct cow_group { int group; uint64 shmem[SHMEM_MAX]; int count; }` and the
global array `cow_group[NPROC]`.  The registry is modelled as a `List CowGroup`
(the length plays the role of NPROC, whose value comes from param.h and is
irrelevant to the claims).  The `shmem` array is a list of SHMEM_MAX = 100
physical addresses with 0 denoting an empty slot. -/

def SHMEM_MAX : Nat := 100

structure CowGroup where
  group : Int
  shmem : List Nat
  count : Int
deriving DecidableEq

def cgDefault : CowGroup := ⟨-1, [], 0⟩

/-- Index of the first registry slot whose `group` field equals `g`
(the scan loop inside `get_cow_group`). -/
def find_group_idx (reg : List CowGroup) (g : Int) : Option Nat :=
  match reg with
  | [] => none
  | c :: rest => if c.group = g then some 0 else (find_group_idx rest g).map (· + 1)

/-- `get_cow_group`: returns the slot index of group `g`, `none` both for the
sentinel id -1 and for an id not present in the registry (the C function
returns a null pointer in those cases). -/
def get_cow_group (reg : List CowGroup) (g : Int) : Option Nat :=
  if g = -1 then none else find_group_idx reg g

/-- `get_cow_group_count`: `return get_cow_group(group)->count;` — no sentinel
guard, so a missing group (including id -1) dereferences null: `none`. -/
def get_cow_group_count (reg : List CowGroup) (g : Int) : Option Int :=
  (get_cow_group reg g).map (fun i => (reg.getD i cgDefault).count)

/-- `incr_cow_group_count`: `get_cow_group(group)->count = get_cow_group_count(group)+1;`
— again unguarded, `none` models the null dereference. -/
def incr_cow_group_count (reg : List CowGroup) (g : Int) : Option (List CowGroup) :=
  (get_cow_group reg g).map (fun i =>
    reg.set i { reg.getD i cgDefault with count := (reg.getD i cgDefault).count + 1 })

/-- `decr_cow_group_count`, same shape as the increment. -/
def decr_cow_group_count (reg : List CowGroup) (g : Int) : Option (List CowGroup) :=
  (get_cow_group reg g).map (fun i =>
    reg.set i { reg.getD i cgDefault with count := (reg.getD i cgDefault).count - 1 })

/-- The scan loop of `add_shmem`: walks the shmem array; returns `none` on the
early `return` for a duplicate address, otherwise `some index` where `index` is
the value of the C loop variable after the loop — the position of the first
empty (zero) slot, or SHMEM_MAX (= the list length) when the loop runs off the
end.  In that last case the C code performs the out-of-bounds store
`shmem[SHMEM_MAX] = pa`. -/
def shmem_scan (shmem : List Nat) (pa : Nat) : Option Nat :=
  match shmem with
  | [] => some 0
  | x :: rest =>
    if x = pa then none
    else if x = 0 then some 0
    else (shmem_scan rest pa).map (· + 1)

/-- Effect of `shmem[index] = pa` on the shmem array itself.  When the computed
index equals the array length (the overflow case) the store lands outside the
array, so the array is unchanged; `List.set` has exactly this behaviour. -/
def add_shmem_list (shmem : List Nat) (pa : Nat) : List Nat :=
  match shmem_scan shmem pa with
  | none => shmem
  | some i => shmem.set i pa

/-- `add_shmem` at registry level.  The sentinel -1 returns early; for any other
id the C code dereferences `get_cow_group(group)` unguarded, hence `none` when
the group is absent. -/
def add_shmem (reg : List CowGroup) (g : Int) (pa : Nat) : Option (List CowGroup) :=
  if g = -1 then some reg
  else (find_group_idx reg g).map (fun i =>
    reg.set i { reg.getD i cgDefault with
                  shmem := add_shmem_list (reg.getD i cgDefault).shmem pa })

/-- The scan loop of `is_shmem`: stops with 0 at the first empty slot, 1 when it
finds `pa` first. -/
def is_shmem_list (shmem : List Nat) (pa : Nat) : Bool :=
  match shmem with
  | [] => false
  | x :: rest => if x = 0 then false else if x = pa then true else is_shmem_list rest pa

/-- `is_shmem` at registry level: 0 for the sentinel, null dereference (`none`)
for a missing non-sentinel group. -/
def is_shmem (reg : List CowGroup) (g : Int) (pa : Nat) : Option Bool :=
  if g = -1 then some false
  else (find_group_idx reg g).map (fun i => is_shmem_list (reg.getD i cgDefault).shmem pa)

/-! ### Registry scan lemmas -/

theorem find_group_idx_lt (reg : List CowGroup) (g : Int) (i : Nat)
    (h : find_group_idx reg g = some i) : i < reg.length := by
  induction reg generalizing i with
  | nil => simp [find_group_idx] at h
  | cons c rest ih =>
    by_cases hc : c.group = g
    · simp [find_group_idx, hc] at h
      subst h
      simp
    · simp [find_group_idx, hc] at h
      obtain ⟨j, hj, rfl⟩ := h
      have := ih j hj
      simp only [List.length_cons]
      omega

theorem find_group_idx_group (reg : List CowGroup) (g : Int) (i : Nat)
    (h : find_group_idx reg g = some i) : (reg.getD i cgDefault).group = g := by
  induction reg generalizing i with
  | nil => simp [find_group_idx] at h
  | cons c rest ih =>
    by_cases hc : c.group = g
    · simp [find_group_idx, hc] at h
      subst h
      simpa using hc
    · simp [find_group_idx, hc] at h
      obtain ⟨j, hj, rfl⟩ := h
      simpa [List.getD_cons_succ] using ih j hj

theorem find_group_idx_set (reg : List CowGroup) (g : Int) (i : Nat) (c' : CowGroup)
    (h : find_group_idx reg g = some i) (hg : c'.group = g) :
    find_group_idx (reg.set i c') g = some i := by
  induction reg generalizing i with
  | nil => simp [find_group_idx] at h
  | cons c rest ih =>
    by_cases hc : c.group = g
    · simp [find_group_idx, hc] at h
      subst h
      simp [List.set, find_group_idx, hg]
    · simp [find_group_idx, hc] at h
      obtain ⟨j, hj, rfl⟩ := h
      simp [List.set, find_group_idx, hc, ih j hj]


/-! ### Shmem scan lemmas -/

theorem shmem_scan_none_is_shmem (s : List Nat) (pa : Nat) (hpa : pa ≠ 0)
    (h : shmem_scan s pa = none) : is_shmem_list s pa = true := by
  induction s with
  | nil => simp [shmem_scan] at h
  | cons x rest ih =>
    by_cases hx : x = pa
    · subst hx
      simp [is_shmem_list, hpa]
    · by_cases hz : x = 0
      · simp [shmem_scan, hx, hz] at h
        exact absurd h.symm hpa
      · simp [shmem_scan, hx, hz] at h
        simp [is_shmem_list, hx, hz]
        exact ih h

theorem shmem_scan_set_is_shmem (s : List Nat) (pa : Nat) (i : Nat) (hpa : pa ≠ 0)
    (h : shmem_scan s pa = some i) (hi : i < s.length) :
    is_shmem_list (s.set i pa) pa = true := by
  induction s generalizing i with
  | nil => simp at hi
  | cons x rest ih =>
    by_cases hx : x = pa
    · simp [shmem_scan, hx] at h
    · by_cases hz : x = 0
      · simp [shmem_scan, hx, hz] at h
        obtain ⟨-, rfl⟩ := h
        simp [List.set, is_shmem_list, hpa]
      · simp [shmem_scan, hx, hz] at h
        obtain ⟨j, hj, rfl⟩ := h
        show is_shmem_list (x :: rest.set j pa) pa = true
        simp [is_shmem_list, hx, hz]
        exact ih j hj (by simpa using hi)

theorem shmem_scan_some_le (s : List Nat) (pa : Nat) (i : Nat)
    (h : shmem_scan s pa = some i) : i ≤ s.length := by
  induction s generalizing i with
  | nil =>
    simp [shmem_scan] at h
    omega
  | cons x rest ih =>
    by_cases hx : x = pa
    · simp [shmem_scan, hx] at h
    · by_cases hz : x = 0
      · simp [shmem_scan, hx, hz] at h
        obtain ⟨-, rfl⟩ := h
        simp
      · simp [shmem_scan, hx, hz] at h
        obtain ⟨j, hj, rfl⟩ := h
        have := ih j hj
        simp only [List.length_cons]
        omega

theorem shmem_scan_full_lt (s : List Nat) (pa : Nat) (i : Nat)
    (hfree : ∃ j, j < s.length ∧ s.getD j 1 = 0)
    (h : shmem_scan s pa = some i) : i < s.length := by
  induction s generalizing i with
  | nil =>
    obtain ⟨j, hj, -⟩ := hfree
    simp at hj
  | cons x rest ih =>
    by_cases hx : x = pa
    · simp [shmem_scan, hx] at h
    · by_cases hz : x = 0
      · simp [shmem_scan, hx, hz] at h
        obtain ⟨-, rfl⟩ := h
        simp
      · simp [shmem_scan, hx, hz] at h
        obtain ⟨j, hj, rfl⟩ := h
        obtain ⟨k, hk, hk0⟩ := hfree
        cases k with
        | zero => simp [List.getD_cons_zero] at hk0; exact absurd hk0 hz
        | succ k' =>
          have : j < rest.length := by
            refine ih j ⟨k', ?_, ?_⟩ hj
            · simpa using hk
            · simpa [List.getD_cons_succ] using hk0
          simp only [List.length_cons]
          omega

theorem is_shmem_scan_none (s : List Nat) (pa : Nat)
    (h : is_shmem_list s pa = true) : shmem_scan s pa = none := by
  induction s with
  | nil => simp [is_shmem_list] at h
  | cons x rest ih =>
    by_cases hz : x = 0
    · simp [is_shmem_list, hz] at h
    · by_cases hx : x = pa
      · simp [shmem_scan, hx]
      · simp [is_shmem_list, hz, hx] at h
        simp [shmem_scan, hx, hz, ih h]

/-! ## Claims C6, C7, C8 — CoW Group Registry behaviour -/

/-- A shared set holding 100 distinct nonzero frame addresses (a full set). -/
def shmemFull : List Nat := (List.range SHMEM_MAX).map (fun k => k + 1)

/-- C6 (code_bug evidence): for a group whose shared set already holds 100
frame addresses, `add_shmem` with a fresh frame computes store index
SHMEM_MAX = 100 — one past the end of the 100-slot `shmem` array — and then
executes the out-of-bounds store `shmem[100] = pa` (clobbering adjacent struct
memory), while the 100 slots of the set itself are left unchanged.  The claim
(and spec) say the insert is silently dropped with no store outside the set's
100 slots; the code does store outside them. -/
theorem c6_full_set_out_of_bounds_store :
    shmem_scan shmemFull 200 = some SHMEM_MAX ∧
    shmemFull.length = SHMEM_MAX ∧
    add_shmem_list shmemFull 200 = shmemFull := by
  refine ⟨by decide, by decide, ?_⟩
  have h : shmem_scan shmemFull 200 = some SHMEM_MAX := by decide
  simp [add_shmem_list, h]
  decide

/-- C7 counterexample: a group (id 5) whose shared set is full (100 frames
1..100): registering the fresh frame 200 leaves the registry unchanged (the
stray store lands outside the array) and `is_shmem` afterwards returns false,
refuting "immediately after registerSharedFrame(g, f) the query
isSharedFrame(g, f) returns true" for every group and frame. -/
theorem c7_counterexample_full_set :
    add_shmem [⟨5, shmemFull, 2⟩] 5 200 = some [⟨5, shmemFull, 2⟩] ∧
    is_shmem [⟨5, shmemFull, 2⟩] 5 200 = some false := by
  constructor
  · have h : shmem_scan shmemFull 200 = some SHMEM_MAX := by decide
    simp [add_shmem, find_group_idx, add_shmem_list, h]
    decide
  · decide

/-- Unfolding of `add_shmem_list` on a duplicate (early return). -/
theorem add_shmem_list_eq_of_none (s : List Nat) (pa : Nat)
    (h : shmem_scan s pa = none) : add_shmem_list s pa = s := by
  unfold add_shmem_list
  rw [h]

/-- Unfolding of `add_shmem_list` when the scan stops at index `k`. -/
theorem add_shmem_list_eq_of_some (s : List Nat) (pa k : Nat)
    (h : shmem_scan s pa = some k) : add_shmem_list s pa = s.set k pa := by
  unfold add_shmem_list
  rw [h]

/-- Unfolding of `add_shmem` when the group is found at slot `i`. -/
theorem add_shmem_found (reg : List CowGroup) (g : Int) (pa : Nat) (i : Nat)
    (hg1 : g ≠ -1) (hfind : find_group_idx reg g = some i) :
    add_shmem reg g pa =
      some (reg.set i { reg.getD i cgDefault with
                          shmem := add_shmem_list (reg.getD i cgDefault).shmem pa }) := by
  simp [add_shmem, hg1, hfind]

/-- Unfolding of `is_shmem` when the group is found at slot `i`. -/
theorem is_shmem_found (reg : List CowGroup) (g : Int) (pa : Nat) (i : Nat)
    (hg1 : g ≠ -1) (hfind : find_group_idx reg g = some i) :
    is_shmem reg g pa = some (is_shmem_list (reg.getD i cgDefault).shmem pa) := by
  simp [is_shmem, hg1, hfind]

/-- C7 (amended): for every existing group g and every nonzero frame address f,
provided the group's shared set still has an empty slot, after
registerSharedFrame(g, f) the query isSharedFrame(g, f) returns true, and
registering f a second time is a no-op: the registry (in particular the shared
set and its size) is unchanged. -/
theorem c7_register_query_idempotent (reg : List CowGroup) (g : Int) (pa : Nat) (i : Nat)
    (hg : get_cow_group reg g = some i)
    (hpa : pa ≠ 0)
    (hfree : ∃ j, j < (reg.getD i cgDefault).shmem.length ∧
                  (reg.getD i cgDefault).shmem.getD j 1 = 0) :
    ∃ reg1, add_shmem reg g pa = some reg1 ∧
      is_shmem reg1 g pa = some true ∧
      add_shmem reg1 g pa = some reg1 := by
  have hg1 : g ≠ -1 := by
    intro hc
    simp [get_cow_group, hc] at hg
  have hfind : find_group_idx reg g = some i := by
    simpa [get_cow_group, hg1] using hg
  have hlt : i < reg.length := find_group_idx_lt reg g i hfind
  have hgrp : (reg.getD i cgDefault).group = g := find_group_idx_group reg g i hfind
  have hmem : is_shmem_list (add_shmem_list (reg.getD i cgDefault).shmem pa) pa = true := by
    rcases hscan : shmem_scan (reg.getD i cgDefault).shmem pa with - | k
    · rw [add_shmem_list_eq_of_none _ _ hscan]
      exact shmem_scan_none_is_shmem (reg.getD i cgDefault).shmem pa hpa hscan
    · have hk : k < (reg.getD i cgDefault).shmem.length :=
        shmem_scan_full_lt (reg.getD i cgDefault).shmem pa k hfree hscan
      rw [add_shmem_list_eq_of_some _ _ _ hscan]
      exact shmem_scan_set_is_shmem (reg.getD i cgDefault).shmem pa k hpa hscan hk
  refine ⟨reg.set i { reg.getD i cgDefault with
                        shmem := add_shmem_list (reg.getD i cgDefault).shmem pa },
          add_shmem_found reg g pa i hg1 hfind, ?_, ?_⟩
  · have hfind' : find_group_idx
        (reg.set i { reg.getD i cgDefault with
                       shmem := add_shmem_list (reg.getD i cgDefault).shmem pa }) g = some i :=
      find_group_idx_set reg g i _ hfind hgrp
    rw [is_shmem_found _ g pa i hg1 hfind',
        getD_set_self reg i _ cgDefault hlt, hmem]
  · have hfind' : find_group_idx
        (reg.set i { reg.getD i cgDefault with
                       shmem := add_shmem_list (reg.getD i cgDefault).shmem pa }) g = some i :=
      find_group_idx_set reg g i _ hfind hgrp
    rw [add_shmem_found _ g pa i hg1 hfind',
        getD_set_self reg i _ cgDefault hlt]
    have hnoop : add_shmem_list (add_shmem_list (reg.getD i cgDefault).shmem pa) pa
        = add_shmem_list (reg.getD i cgDefault).shmem pa := by
      have hnone := is_shmem_scan_none _ pa hmem
      exact add_shmem_list_eq_of_none _ _ hnone
    rw [List.set_set]
    congr 1
    rw [hnoop]

/-- C7 witness: the amended theorem applied to a one-group registry with an
empty shared set and frame 4096. -/
theorem c7_witness :
    ∃ reg1, add_shmem [⟨5, List.replicate 100 0, 2⟩] 5 4096 = some reg1 ∧
      is_shmem reg1 5 4096 = some true ∧
      add_shmem reg1 5 4096 = some reg1 :=
  c7_register_query_idempotent [⟨5, List.replicate 100 0, 2⟩] 5 4096 0
    (by decide) (by decide) ⟨0, by decide, by decide⟩

/-- C8 (code_bug evidence): registry operations at the "no group" sentinel -1.
The lookups `get_cow_group`, `is_shmem` and the mutator `add_shmem` do guard
the sentinel (null / false / no-op), but `get_cow_group_count`,
`incr_cow_group_count` and `decr_cow_group_count` have no guard: they
dereference the null pointer returned by `get_cow_group(-1)` (modelled as
`none` — a kernel fault), contradicting the claim that every registry
operation invoked with the sentinel is safe. -/
theorem c8_sentinel_operations (reg : List CowGroup) (pa : Nat) :
    get_cow_group reg (-1) = none ∧
    get_cow_group_count reg (-1) = none ∧
    incr_cow_group_count reg (-1) = none ∧
    decr_cow_group_count reg (-1) = none ∧
    add_shmem reg (-1) pa = some reg ∧
    is_shmem reg (-1) pa = some false := by
  simp [get_cow_group, get_cow_group_count, incr_cow_group_count,
        decr_cow_group_count, add_shmem, is_shmem]

/-! ## Address-Space Teardown (kernel/cow.c: uvmunmap_cow, proc_freepagetable_cow)

A page-table range is modelled as the list of leaf PTEs returned by `walk`
for the successive page-aligned addresses: `none` models `walk` returning a
null pointer (panic "uvmunmap: walk"); `some pte` is the raw 64-bit entry.
PTE_V is bit 0, the low 10 bits are the flag field (PTE_FLAGS), and
PTE2PA(pte) = (pte >> 10) << 12. -/

def pte_pa (pte : Nat) : Nat := pte / 1024 * 4096

structure UnmapResult where
  ptes : List (Option Nat)
  freed : List Nat
deriving DecidableEq

/-- The free decision of `uvmunmap_cow`'s `do_free` branch:
`if(is_shmem(group, pa)) { if(get_cow_group_count(group) == 0) kfree(pa); }
else kfree(pa);`.  Returns `some true` when `kfree` runs, `some false` when it
is skipped, `none` when the registry access itself crashes (missing group). -/
def free_decision (reg : List CowGroup) (g : Int) (pa : Nat) : Option Bool :=
  match is_shmem reg g pa with
  | none => none
  | some true => (get_cow_group_count reg g).map (fun c => c == 0)
  | some false => some true

/-- `uvmunmap_cow` over the PTE list of the range.  Result: the updated
entries and the list of physical addresses passed to `kfree`, or `none` for a
panic (null walk, or a valid entry whose flags are exactly PTE_V — "not a
leaf") or a crash inside the registry.  An entry with PTE_V clear is skipped
(`continue`) and left untouched; a freed or unmapped entry is zeroed. -/
def uvmunmap_cow (reg : List CowGroup) (g : Int) (do_free : Bool) :
    List (Option Nat) → Option UnmapResult
  | [] => some ⟨[], []⟩
  | none :: _ => none
  | some pte :: rest =>
    if pte % 2 = 0 then
      (uvmunmap_cow reg g do_free rest).map (fun r => ⟨some pte :: r.ptes, r.freed⟩)
    else if pte % 1024 = 1 then none
    else if do_free then
      match free_decision reg g (pte_pa pte) with
      | none => none
      | some b =>
        (uvmunmap_cow reg g do_free rest).map (fun r =>
          ⟨some 0 :: r.ptes, if b then pte_pa pte :: r.freed else r.freed⟩)
    else
      (uvmunmap_cow reg g do_free rest).map (fun r => ⟨some 0 :: r.ptes, r.freed⟩)

/-- `proc_freepagetable_cow`: after unmapping TRAMPOLINE and TRAPFRAME
(plain `uvmunmap` with do_free = 0, which frees nothing and touches only those
two fixed kernel mappings — not part of the user range modelled here), it runs
`uvmfree_cow` (= `uvmunmap_cow` over the whole user range with do_free = 1,
then `freewalk` on the page-table pages themselves) and only afterwards
decrements the CoW group's member count. -/
def proc_freepagetable_cow (reg : List CowGroup) (g : Int) (ptes : List (Option Nat)) :
    Option (UnmapResult × List CowGroup) :=
  match uvmunmap_cow reg g true ptes with
  | none => none
  | some r => (decr_cow_group_count reg g).map (fun reg2 => (r, reg2))

/-- Closed form of the freed list when the teardown scan completes. -/
def freedList (reg : List CowGroup) (g : Int) (do_free : Bool)
    (ptes : List (Option Nat)) : List Nat :=
  ptes.filterMap (fun o =>
    match o with
    | none => none
    | some pte =>
      if pte % 2 = 0 then none
      else if do_free ∧ free_decision reg g (pte_pa pte) = some true then some (pte_pa pte)
      else none)

theorem uvmunmap_cow_freed (reg : List CowGroup) (g : Int) (do_free : Bool)
    (ptes : List (Option Nat)) (r : UnmapResult)
    (h : uvmunmap_cow reg g do_free ptes = some r) :
    r.freed = freedList reg g do_free ptes := by
  induction ptes generalizing r with
  | nil =>
    simp [uvmunmap_cow] at h
    subst h
    simp [freedList]
  | cons o rest ih =>
    match o with
    | none => simp [uvmunmap_cow] at h
    | some pte =>
      by_cases h2 : pte % 2 = 0
      · rw [uvmunmap_cow, if_pos h2] at h
        rcases hr : uvmunmap_cow reg g do_free rest with - | r'
        · rw [hr] at h
          simp at h
        · rw [hr] at h
          simp at h
          subst h
          simp [freedList, h2]
          exact ih r' hr
      · by_cases h10 : pte % 1024 = 1
        · rw [uvmunmap_cow, if_neg h2, if_pos h10] at h
          simp at h
        · rw [uvmunmap_cow, if_neg h2, if_neg h10] at h
          by_cases hdf : do_free = true
          · subst hdf
            rw [if_pos rfl] at h
            rcases hfd : free_decision reg g (pte_pa pte) with - | b
            · rw [hfd] at h
              simp at h
            · rw [hfd] at h
              rcases hr : uvmunmap_cow reg g true rest with - | r'
              · rw [hr] at h
                simp at h
              · rw [hr] at h
                simp at h
                subst h
                cases b with
                | false =>
                  simp [freedList, h2, hfd]
                  simpa [freedList] using ih r' hr
                | true =>
                  simp [freedList, h2, hfd]
                  simpa [freedList] using ih r' hr
          · have hdf' : do_free = false := by simpa using hdf
            subst hdf'
            rw [if_neg (by simp)] at h
            rcases hr : uvmunmap_cow reg g false rest with - | r'
            · rw [hr] at h
              simp at h
            · rw [hr] at h
              simp at h
              subst h
              simp [freedList, h2]
              simpa [freedList] using ih r' hr

theorem freedList_mem (reg : List CowGroup) (g : Int) (df : Bool)
    (ptes : List (Option Nat)) (k pte : Nat)
    (hklen : k < ptes.length) (hk : ptes.getD k none = some pte)
    (h2 : pte % 2 = 1) (h10 : pte % 1024 ≠ 1)
    (hdf : df = true) (hfd : free_decision reg g (pte_pa pte) = some true) :
    pte_pa pte ∈ freedList reg g df ptes := by
  subst hdf
  have hmem : (some pte) ∈ ptes := by
    rw [List.getD_eq_getElem ptes none hklen] at hk
    rw [← hk]
    exact List.getElem_mem hklen
  rw [freedList, List.mem_filterMap]
  refine ⟨some pte, hmem, ?_⟩
  have h2' : ¬(pte % 2 = 0) := by omega
  simp [h2', hfd]

theorem freedList_not_mem (reg : List CowGroup) (g : Int) (df : Bool)
    (ptes : List (Option Nat)) (pa : Nat)
    (hfd : free_decision reg g pa = some false) :
    pa ∉ freedList reg g df ptes := by
  intro hmem
  rw [freedList, List.mem_filterMap] at hmem
  obtain ⟨o, -, hfo⟩ := hmem
  match o with
  | none => simp at hfo
  | some q =>
    by_cases h2 : q % 2 = 0
    · simp [h2] at hfo
    · by_cases hfd2 : free_decision reg g (pte_pa q) = some true
      · by_cases hdf2 : df = true
        · simp [h2, hfd2, hdf2] at hfo
          rw [hfo] at hfd2
          rw [hfd2] at hfd
          simp at hfd
        · simp [h2, hdf2] at hfo
      · simp [h2, hfd2] at hfo

theorem get_cow_group_some (reg : List CowGroup) (g : Int) (i : Nat)
    (h : get_cow_group reg g = some i) :
    g ≠ -1 ∧ find_group_idx reg g = some i := by
  by_cases hg : g = -1
  · simp [get_cow_group, hg] at h
  · exact ⟨hg, by simpa [get_cow_group, hg] using h⟩

/-- C1: teardown of a process never frees a frame registered as shared in its
CoW group while the group's member count is nonzero; when the count has
reached zero a shared frame mapped by a valid leaf entry is freed, and a
non-shared frame is freed unconditionally; and `proc_freepagetable_cow`
decrements the member count only after the whole range has been unmapped —
the free decisions are all taken against the registry before the decrement,
and the final registry holds the decremented count. -/
theorem c1_teardown_cow_frame_lifetime (reg : List CowGroup) (g : Int)
    (ptes : List (Option Nat)) (r : UnmapResult)
    (h : uvmunmap_cow reg g true ptes = some r) :
    (∀ pa c, is_shmem reg g pa = some true → get_cow_group_count reg g = some c →
        c ≠ 0 → pa ∉ r.freed) ∧
    (∀ pa, is_shmem reg g pa = some true → get_cow_group_count reg g = some 0 →
        ∀ k pte, k < ptes.length → ptes.getD k none = some pte →
          pte % 2 = 1 → pte % 1024 ≠ 1 → pte_pa pte = pa → pa ∈ r.freed) ∧
    (∀ pa, is_shmem reg g pa = some false →
        ∀ k pte, k < ptes.length → ptes.getD k none = some pte →
          pte % 2 = 1 → pte % 1024 ≠ 1 → pte_pa pte = pa → pa ∈ r.freed) ∧
    (∀ r' reg', proc_freepagetable_cow reg g ptes = some (r', reg') →
        r' = r ∧
        get_cow_group_count reg' g = (get_cow_group_count reg g).map (fun c => c - 1)) := by
  have hfreed := uvmunmap_cow_freed reg g true ptes r h
  refine ⟨?_, ?_, ?_, ?_⟩
  · intro pa c hsh hcnt hc
    rw [hfreed]
    apply freedList_not_mem
    rw [free_decision, hsh, hcnt]
    simp
    omega
  · intro pa hsh hcnt k pte hklen hk h2 h10 hpa
    rw [hfreed, ← hpa]
    apply freedList_mem reg g true ptes k pte hklen hk h2 h10 rfl
    rw [free_decision, hpa, hsh, hcnt]
    simp
  · intro pa hsh k pte hklen hk h2 h10 hpa
    rw [hfreed, ← hpa]
    apply freedList_mem reg g true ptes k pte hklen hk h2 h10 rfl
    rw [free_decision, hpa, hsh]
  · intro r' reg' hp
    rw [proc_freepagetable_cow, h] at hp
    rcases hd : decr_cow_group_count reg g with - | reg2
    · rw [hd] at hp
      simp at hp
    · rw [hd] at hp
      simp at hp
      obtain ⟨hr', hreg'⟩ := hp
      subst hreg'
      refine ⟨hr'.symm, ?_⟩
      rw [decr_cow_group_count] at hd
      rcases hgc : get_cow_group reg g with - | i
      · rw [hgc] at hd
        simp at hd
      · rw [hgc] at hd
        simp only [Option.map_some'] at hd
        have hd2 := Option.some.inj hd
        obtain ⟨hne, hfind⟩ := get_cow_group_some reg g i hgc
        have hlt : i < reg.length := find_group_idx_lt reg g i hfind
        have hgrp : (reg.getD i cgDefault).group = g := find_group_idx_group reg g i hfind
        have hfind' : find_group_idx reg2 g = some i := by
          rw [← hd2]
          exact find_group_idx_set reg g i _ hfind hgrp
        have hgetD : reg2.getD i cgDefault
            = { reg.getD i cgDefault with count := (reg.getD i cgDefault).count - 1 } := by
          rw [← hd2]
          exact getD_set_self reg i _ cgDefault hlt
        have hcount1 : get_cow_group_count reg g = some (reg.getD i cgDefault).count := by
          rw [get_cow_group_count, get_cow_group, if_neg hne, hfind, Option.map_some']
        have hcount2 : get_cow_group_count reg2 g
            = some ((reg.getD i cgDefault).count - 1) := by
          rw [get_cow_group_count, get_cow_group, if_neg hne, hfind', Option.map_some', hgetD]
        rw [hcount1, hcount2, Option.map_some']

/-- Helper for teardown completeness: the registry side of the free decision
cannot crash when the group id is the sentinel or names an existing group. -/
theorem free_decision_isSome (reg : List CowGroup) (g : Int) (pa : Nat)
    (hreg : g = -1 ∨ (g ≠ -1 ∧ ∃ i, find_group_idx reg g = some i)) :
    free_decision reg g pa ≠ none := by
  rcases hreg with hg | ⟨hg, i, hfind⟩
  · simp [free_decision, is_shmem, hg]
  · rw [free_decision, is_shmem_found reg g pa i hg hfind]
    cases is_shmem_list (reg.getD i cgDefault).shmem pa with
    | false => simp
    | true =>
      simp [get_cow_group_count, get_cow_group, hg, hfind]

/-- C10: Address-Space Teardown tolerates holes.  First conjunct: a page whose
PTE exists but has PTE_V clear is skipped silently — no panic, no frame freed
for it, the entry left exactly as it was — and the scan continues with the
rest of the range.  Second conjunct: over any range whose entries all exist
and are either not-present or proper leaves, and whose group id is the
sentinel or an existing group, teardown completes (no panic at all). -/
theorem c10_teardown_tolerates_holes :
    (∀ (reg : List CowGroup) (g : Int) (df : Bool) (pte : Nat)
        (rest : List (Option Nat)), pte % 2 = 0 →
        uvmunmap_cow reg g df (some pte :: rest) =
          (uvmunmap_cow reg g df rest).map (fun r => ⟨some pte :: r.ptes, r.freed⟩)) ∧
    (∀ (reg : List CowGroup) (g : Int) (df : Bool) (ptes : List (Option Nat)),
        (∀ o ∈ ptes, ∃ pte, o = some pte ∧ (pte % 2 = 0 ∨ pte % 1024 ≠ 1)) →
        (g = -1 ∨ (g ≠ -1 ∧ ∃ i, find_group_idx reg g = some i)) →
        (uvmunmap_cow reg g df ptes).isSome) := by
  constructor
  · intro reg g df pte rest h2
    rw [uvmunmap_cow, if_pos h2]
  · intro reg g df ptes hok hreg
    induction ptes with
    | nil => simp [uvmunmap_cow]
    | cons o rest ih =>
      obtain ⟨pte, rfl, hval⟩ := hok o (by simp)
      have ihrest := ih (fun o ho => hok o (by simp [ho]))
      by_cases h2 : pte % 2 = 0
      · rw [uvmunmap_cow, if_pos h2]
        simpa using ihrest
      · have h10 : pte % 1024 ≠ 1 := by
          rcases hval with hv | hv
          · exact absurd hv h2
          · exact hv
        rw [uvmunmap_cow, if_neg h2, if_neg h10]
        by_cases hdf : df = true
        · subst hdf
          rw [if_pos rfl]
          rcases hfd : free_decision reg g (pte_pa pte) with - | b
          · exact absurd hfd (free_decision_isSome reg g (pte_pa pte) hreg)
          · simpa using ihrest
        · have hdf' : df = false := by simpa using hdf
          subst hdf'
          rw [if_neg (by simp)]
          simpa using ihrest

/-- C1 witness: a one-group registry (group 7, member count 1, frame 12288
shared) and a two-page range mapping the shared frame 12288 and the private
frame 16384: teardown frees only the private frame, and
`proc_freepagetable_cow` leaves the registry with count 0, decremented only
after the unmap. -/
theorem c1_witness :
    (12288 : Nat) ∉ UnmapResult.freed ⟨[some 0, some 0], [16384]⟩ ∧
    (16384 : Nat) ∈ UnmapResult.freed ⟨[some 0, some 0], [16384]⟩ ∧
    ((⟨[some 0, some 0], [16384]⟩ : UnmapResult) = ⟨[some 0, some 0], [16384]⟩ ∧
      get_cow_group_count [⟨7, 12288 :: List.replicate 99 0, 0⟩] 7 =
        (get_cow_group_count [⟨7, 12288 :: List.replicate 99 0, 1⟩] 7).map
          (fun c => c - 1)) := by
  have h : uvmunmap_cow [⟨7, 12288 :: List.replicate 99 0, 1⟩] 7 true
      [some 3087, some 4111] = some ⟨[some 0, some 0], [16384]⟩ := by decide
  have hc := c1_teardown_cow_frame_lifetime [⟨7, 12288 :: List.replicate 99 0, 1⟩] 7
    [some 3087, some 4111] ⟨[some 0, some 0], [16384]⟩ h
  refine ⟨hc.1 12288 1 (by decide) (by decide) (by decide),
          hc.2.2.1 16384 (by decide) 1 4111 (by decide) (by decide) (by decide)
            (by decide) rfl,
          hc.2.2.2 ⟨[some 0, some 0], [16384]⟩ [⟨7, 12288 :: List.replicate 99 0, 0⟩]
            (by decide)⟩

/-- C10 witness: a range consisting of a non-present entry (raw PTE 2, PTE_V
clear) followed by a valid leaf: the hole is skipped and the whole teardown
completes. -/
theorem c10_witness :
    uvmunmap_cow [] (-1) true [some 2, some 4111] =
      (uvmunmap_cow [] (-1) true [some 4111]).map
        (fun r => ⟨some 2 :: r.ptes, r.freed⟩) ∧
    (uvmunmap_cow [] (-1) true [some 2, some 4111]).isSome := by
  refine ⟨c10_teardown_tolerates_holes.1 [] (-1) true 2 [some 4111] (by decide),
          c10_teardown_tolerates_holes.2 [] (-1) true [some 2, some 4111] ?_ (Or.inl rfl)⟩
  intro o ho
  simp at ho
  rcases ho with rfl | rfl
  · exact ⟨2, rfl, Or.inl (by decide)⟩
  · exact ⟨4111, rfl, Or.inr (by decide)⟩

/-! ## Swap-Slot Allocator (kernel/pfault.c: the psa_tracker scan in
evict_page_to_disk)

`bool psa_tracker[PSASIZE]` is modelled as a `List Bool` (true = block in
use); PSASIZE comes from memlayout.h and stays abstract as the list length
(the claims use 40).  The scan looks for the first run of 4 consecutive free
blocks, marks the run used and leaves `blockno` at its start; when no such
run exists the loop falls through without marking anything and `blockno`
keeps its last value (0 if no free block was ever seen), with no failure
indication of any kind. -/

def mark4 (t : List Bool) (b : Nat) : List Bool :=
  (((t.set b true).set (b + 1) true).set (b + 2) true).set (b + 3) true

def psa_scan_go (rest : List Bool) (i blockno freeBlocks : Nat) (orig : List Bool) :
    Nat × List Bool :=
  match rest with
  | [] => (blockno, orig)
  | b :: bs =>
    if b then psa_scan_go bs (i + 1) blockno 0 orig
    else
      let blockno' := if freeBlocks = 0 then i else blockno
      if freeBlocks + 1 = 4 then (blockno', mark4 orig blockno')
      else psa_scan_go bs (i + 1) blockno' (freeBlocks + 1) orig

/-- The block-finding loop of `evict_page_to_disk`: returns the resulting
`blockno` and the updated tracker. -/
def psa_scan (t : List Bool) : Nat × List Bool :=
  psa_scan_go t 0 0 0 t

/-- `n` successive allocation scans, collecting the returned start indices. -/
def psa_allocs : Nat → List Bool → List Nat × List Bool
  | 0, t => ([], t)
  | n + 1, t =>
    let r := psa_scan t
    let rest := psa_allocs n r.2
    (r.1 :: rest.1, rest.2)

/-- The claim-side success condition for one allocation (refinement target,
following the spec's words): a successful allocation returns a start index of
a previously-free in-range run; a "resource-exhaustion failure" would be any
outcome other than this. -/
def alloc_returns_fresh_extent (t : List Bool) : Prop :=
  (psa_scan t).1 + 4 ≤ t.length ∧ t.getD (psa_scan t).1 true = false

/-- C2 counterexample: after ten 4-block allocations the 40-block bitmap is
fully used; the eleventh scan does not fail in any observable way — it leaves
the bitmap unchanged and yields start index 0, whose block is already in use,
so the subsequent block writes silently reuse the extent at block 0.  This
refutes "an eleventh allocation attempt fails with an explicit
resource-exhaustion condition rather than silently reusing already-allocated
blocks". -/
theorem c2_counterexample_silent_reuse :
    (psa_allocs 10 (List.replicate 40 false)).2 = List.replicate 40 true ∧
    psa_scan (List.replicate 40 true) = (0, List.replicate 40 true) ∧
    ¬ alloc_returns_fresh_extent (List.replicate 40 true) := by
  refine ⟨by decide, by decide, ?_⟩
  intro hfresh
  have := hfresh.2
  simp [psa_scan] at this
  revert this
  decide

/-- C2 (amended): with a 40-block bitmap, ten successive 4-block allocations
all succeed — the i-th marks the first free run, blocks 4i..4i+3, and returns
start index 4i — leaving every block used; the eleventh scan finds no free
run, marks nothing (bitmap unchanged) and falls through with start index 0,
an already-used block, silently aliasing the first extent instead of
signalling resource exhaustion. -/
theorem c2_swap_exhaustion_behaviour :
    psa_allocs 10 (List.replicate 40 false)
      = ([0, 4, 8, 12, 16, 20, 24, 28, 32, 36], List.replicate 40 true) ∧
    psa_scan (List.replicate 40 true) = (0, List.replicate 40 true) ∧
    (List.replicate 40 true).getD 0 true = true := by
  refine ⟨by decide, by decide, by decide⟩

/-! ## Heap page descriptors and eviction victim selection (kernel/pfault.c)

`p->heap_tracker[MAXHEAP]` entries: virtual address, `loaded` flag (true =
evicted to swap, false = resident), last access timestamp (uint64), start
block of the swap extent.  MAXHEAP (param.h) stays abstract as the list
length. -/

def UINT64_MAX : Nat := 2 ^ 64 - 1

structure HeapPage where
  addr : Nat
  loaded : Bool
  last_load_time : Nat
  startblock : Nat
deriving DecidableEq

def hpDefault : HeapPage := ⟨0, false, 0, 0⟩

/-- The victim-selection loop of `evict_page_to_disk`: victimPageIndex starts
at 0 and minTime at UINT64_MAX; an entry strictly below the current minimum
among those with `loaded` false (resident) takes over. -/
def find_victim_go : List HeapPage → Nat → Nat → Nat → Nat
  | [], _, victim, _ => victim
  | h :: t, i, victim, m =>
    if h.loaded = false ∧ h.last_load_time < m then
      find_victim_go t (i + 1) i h.last_load_time
    else find_victim_go t (i + 1) victim m

def find_victim (hs : List HeapPage) : Nat := find_victim_go hs 0 0 UINT64_MAX

theorem find_victim_go_none (hs : List HeapPage) (i v m : Nat)
    (h : ∀ k, k < hs.length →
      ¬((hs.getD k hpDefault).loaded = false ∧
        (hs.getD k hpDefault).last_load_time < m)) :
    find_victim_go hs i v m = v := by
  induction hs generalizing i with
  | nil => rfl
  | cons x t ih =>
    have hx := h 0 (by simp)
    rw [find_victim_go, if_neg (by simpa using hx)]
    exact ih (i + 1) (fun k hk => by simpa using h (k + 1) (by simpa using hk))

theorem find_victim_go_some (hs : List HeapPage) (i v m : Nat)
    (h : ∃ k, k < hs.length ∧ (hs.getD k hpDefault).loaded = false ∧
      (hs.getD k hpDefault).last_load_time < m) :
    ∃ k, k < hs.length ∧ find_victim_go hs i v m = i + k ∧
      (hs.getD k hpDefault).loaded = false ∧
      (hs.getD k hpDefault).last_load_time < m ∧
      (∀ j, j < hs.length → (hs.getD j hpDefault).loaded = false →
        (hs.getD k hpDefault).last_load_time ≤ (hs.getD j hpDefault).last_load_time) ∧
      (∀ j, j < k → (hs.getD j hpDefault).loaded = false →
        (hs.getD k hpDefault).last_load_time < (hs.getD j hpDefault).last_load_time) := by
  induction hs generalizing i v m with
  | nil =>
    obtain ⟨k, hk, -⟩ := h
    simp at hk
  | cons x t ih =>
    by_cases hcond : x.loaded = false ∧ x.last_load_time < m
    · rw [find_victim_go, if_pos hcond]
      by_cases hex : ∃ k', k' < t.length ∧ (t.getD k' hpDefault).loaded = false ∧
          (t.getD k' hpDefault).last_load_time < x.last_load_time
      · obtain ⟨k', hk'len, hgo, hres, htime, hmin, hstrict⟩ :=
          ih (i + 1) i x.last_load_time hex
        refine ⟨k' + 1, by simpa using Nat.succ_lt_succ hk'len, ?_, ?_, ?_, ?_, ?_⟩
        · rw [hgo]
          omega
        · simpa [List.getD_cons_succ] using hres
        · simp only [List.getD_cons_succ]
          exact lt_trans htime hcond.2
        · intro j hj hresj
          cases j with
          | zero =>
            simp only [List.getD_cons_succ, List.getD_cons_zero]
            exact le_of_lt htime
          | succ j' =>
            simp only [List.getD_cons_succ] at hresj ⊢
            exact hmin j' (by simpa using hj) hresj
        · intro j hj hresj
          cases j with
          | zero =>
            simp only [List.getD_cons_succ, List.getD_cons_zero] at hresj ⊢
            exact htime
          | succ j' =>
            simp only [List.getD_cons_succ] at hresj ⊢
            exact hstrict j' (by omega) hresj
      · push_neg at hex
        have hnone : find_victim_go t (i + 1) i x.last_load_time = i := by
          apply find_victim_go_none
          intro k hk hc
          exact absurd hc.2 (not_lt.mpr (hex k hk hc.1))
        refine ⟨0, by simp, ?_, by simpa using hcond.1, by simpa using hcond.2, ?_, ?_⟩
        · rw [hnone]
          omega
        · intro j hj hresj
          cases j with
          | zero => exact le_refl _
          | succ j' =>
            simp only [List.getD_cons_zero, List.getD_cons_succ] at hresj ⊢
            exact hex j' (by simpa using hj) hresj
        · intro j hj hresj
          omega
    · rw [find_victim_go, if_neg hcond]
      obtain ⟨k0, hk0, hres0, htime0⟩ := h
      cases k0 with
      | zero => exact absurd ⟨by simpa using hres0, by simpa using htime0⟩ hcond
      | succ k0' =>
        have hex : ∃ k', k' < t.length ∧ (t.getD k' hpDefault).loaded = false ∧
            (t.getD k' hpDefault).last_load_time < m :=
          ⟨k0', by simpa using hk0, by simpa using hres0, by simpa using htime0⟩
        obtain ⟨k', hk'len, hgo, hres, htime, hmin, hstrict⟩ := ih (i + 1) v m hex
        refine ⟨k' + 1, by simpa using Nat.succ_lt_succ hk'len, ?_,
                by simpa using hres, by simpa using htime, ?_, ?_⟩
        · rw [hgo]
          omega
        · intro j hj hresj
          cases j with
          | zero =>
            simp only [List.getD_cons_zero] at hresj
            simp only [List.getD_cons_succ, List.getD_cons_zero]
            have hxm : ¬ x.last_load_time < m := fun hc => hcond ⟨hresj, hc⟩
            omega
          | succ j' =>
            simp only [List.getD_cons_succ] at hresj ⊢
            exact hmin j' (by simpa using hj) hresj
        · intro j hj hresj
          cases j with
          | zero =>
            simp only [List.getD_cons_zero] at hresj
            simp only [List.getD_cons_succ, List.getD_cons_zero]
            have hxm : ¬ x.last_load_time < m := fun hc => hcond ⟨hresj, hc⟩
            omega
          | succ j' =>
            simp only [List.getD_cons_succ] at hresj ⊢
            exact hstrict j' (by omega) hresj

/-- C3 counterexample: a table whose only resident descriptor (index 1) has
last-access timestamp 2^64 - 1, the scan's initial minimum: the strict
comparison never fires, so the scan returns the default index 0 — which is
not even resident — refuting "in general it selects, among descriptors
currently marked resident, the one with the smallest last-access
timestamp". -/
theorem c3_counterexample_sentinel_timestamp :
    find_victim [⟨4096, true, 0, 0⟩, ⟨8192, false, UINT64_MAX, 0⟩] = 0 ∧
    ([⟨4096, true, 0, 0⟩, ⟨8192, false, UINT64_MAX, 0⟩].getD 0 hpDefault).loaded = true ∧
    ([⟨4096, true, 0, 0⟩, ⟨8192, false, UINT64_MAX, 0⟩].getD 1 hpDefault).loaded
      = false := by
  refine ⟨?_, by decide, by decide⟩
  rw [find_victim, find_victim_go]
  rw [if_neg (by simp)]
  rw [find_victim_go]
  rw [if_neg (by simp [UINT64_MAX])]
  rfl

/-- C3 (amended): with resident pages at indices 0..3 carrying timestamps
[10, 30, 5, 20] and every other descriptor evicted, the Eviction Engine
selects index 2; and in general, whenever some resident descriptor has a
timestamp below 2^64 - 1 (the scan's initial minimum — always the case for
real tick counts), the selected victim is resident, carries the minimum
timestamp among resident descriptors, and ties are broken towards the
smallest table index.  (If every resident timestamp equals 2^64 - 1 the scan
returns index 0 regardless of residency.) -/
theorem c3_victim_is_oldest_resident :
    (∀ hs : List HeapPage, 4 ≤ hs.length →
      (hs.getD 0 hpDefault).loaded = false → (hs.getD 0 hpDefault).last_load_time = 10 →
      (hs.getD 1 hpDefault).loaded = false → (hs.getD 1 hpDefault).last_load_time = 30 →
      (hs.getD 2 hpDefault).loaded = false → (hs.getD 2 hpDefault).last_load_time = 5 →
      (hs.getD 3 hpDefault).loaded = false → (hs.getD 3 hpDefault).last_load_time = 20 →
      (∀ k, k < hs.length → 4 ≤ k → (hs.getD k hpDefault).loaded = true) →
      find_victim hs = 2) ∧
    (∀ hs : List HeapPage,
      (∃ k, k < hs.length ∧ (hs.getD k hpDefault).loaded = false ∧
        (hs.getD k hpDefault).last_load_time < UINT64_MAX) →
      find_victim hs < hs.length ∧
      (hs.getD (find_victim hs) hpDefault).loaded = false ∧
      (∀ j, j < hs.length → (hs.getD j hpDefault).loaded = false →
        (hs.getD (find_victim hs) hpDefault).last_load_time
          ≤ (hs.getD j hpDefault).last_load_time) ∧
      (∀ j, j < find_victim hs → (hs.getD j hpDefault).loaded = false →
        (hs.getD (find_victim hs) hpDefault).last_load_time
          < (hs.getD j hpDefault).last_load_time)) := by
  constructor
  · intro hs hlen h0l h0t h1l h1t h2l h2t h3l h3t hrest
    have hex : ∃ k, k < hs.length ∧ (hs.getD k hpDefault).loaded = false ∧
        (hs.getD k hpDefault).last_load_time < UINT64_MAX :=
      ⟨2, by omega, h2l, by rw [h2t]; decide⟩
    obtain ⟨k, hklen, hgo, hres, htime, hmin, hstrict⟩ :=
      find_victim_go_some hs 0 0 UINT64_MAX hex
    have hfv : find_victim hs = k := by
      rw [find_victim, hgo]
      omega
    have hk4 : k < 4 := by
      by_contra hge
      push_neg at hge
      have hl := hrest k hklen hge
      rw [hl] at hres
      simp at hres
    have hmin2 := hmin 2 (by omega) h2l
    rw [h2t] at hmin2
    interval_cases k
    · rw [h0t] at hmin2
      omega
    · rw [h1t] at hmin2
      omega
    · exact hfv
    · rw [h3t] at hmin2
      omega
  · intro hs hex
    obtain ⟨k, hklen, hgo, hres, htime, hmin, hstrict⟩ :=
      find_victim_go_some hs 0 0 UINT64_MAX hex
    have hfv : find_victim hs = k := by
      rw [find_victim, hgo]
      omega
    rw [hfv]
    exact ⟨hklen, hres, hmin, hstrict⟩

/-- C3 witness: the amended theorem applied to the concrete four-entry table
with timestamps [10, 30, 5, 20], all resident. -/
theorem c3_witness :
    find_victim [⟨4096, false, 10, 0⟩, ⟨8192, false, 30, 0⟩,
                 ⟨12288, false, 5, 0⟩, ⟨16384, false, 20, 0⟩] = 2 ∧
    ([⟨4096, false, 10, 0⟩, ⟨8192, false, 30, 0⟩, ⟨12288, false, 5, 0⟩,
      ⟨16384, false, 20, 0⟩].getD
        (find_victim [⟨4096, false, 10, 0⟩, ⟨8192, false, 30, 0⟩,
                      ⟨12288, false, 5, 0⟩, ⟨16384, false, 20, 0⟩]) hpDefault).loaded
      = false := by
  constructor
  · exact c3_victim_is_oldest_resident.1
      [⟨4096, false, 10, 0⟩, ⟨8192, false, 30, 0⟩, ⟨12288, false, 5, 0⟩,
       ⟨16384, false, 20, 0⟩]
      (by decide) (by decide) (by decide) (by decide) (by decide) (by decide)
      (by decide) (by decide) (by decide) (by intro k hk hk4; simp at hk; omega)
  · exact (c3_victim_is_oldest_resident.2
      [⟨4096, false, 10, 0⟩, ⟨8192, false, 30, 0⟩, ⟨12288, false, 5, 0⟩,
       ⟨16384, false, 20, 0⟩]
      ⟨2, by decide, by decide, by decide⟩).2.1

/-! ## Process state for the heap fault path (kernel/pfault.c)

The page table is modelled as a partial map from page-aligned virtual
addresses to (permission flags, 4096 content bytes); the swap disk as a map
from absolute block numbers to their BSIZE = 1024 data bytes.  PSASTART
(memlayout.h) stays abstract as the parameter `ps`. -/

def PGSIZE : Nat := 4096

def PTable : Type := Nat → Option (Nat × List Nat)

def zeroPage : List Nat := List.replicate 4096 0

/-- xv6's kalloc fills freshly allocated pages with junk (5s); this is what
the temporary kernel page holds where the code ignores a copyin failure. -/
def kallocJunk : List Nat := List.replicate 4096 5

structure PState where
  name : List Nat
  resident_heap_pages : Int
  heap_tracker : List HeapPage
  pagetable : PTable
  psa : List Bool
  disk : Nat → List Nat

/-- Byte range `[1024*i, 1024*(i+1))` of a page buffer — the source of
`memmove(b->data, ptr + (i*1024), 1024)`. -/
def pageChunk (content : List Nat) (i : Nat) : List Nat :=
  (content.drop (1024 * i)).take 1024

/-- A single block write (`bwrite` of buffer `b` for block `k`). -/
def dwrite (d : Nat → List Nat) (k : Nat) (v : List Nat) : Nat → List Nat :=
  fun j => if j = k then v else d j

/-- `memmove(ptr + (1024*i), b->data, 1024)` reads exactly BSIZE bytes of a
block. -/
def blockBytes (l : List Nat) : List Nat := l.take 1024

/-- The result of `copyin(p->pagetable, ptr, vaAddr, PGSIZE)` for the victim
page: its mapped content, or the kalloc junk left in the buffer when the copy
fails (the code ignores copyin's return value). -/
def evict_content (s : PState) : List Nat :=
  match s.pagetable ((s.heap_tracker.getD (find_victim s.heap_tracker) hpDefault).addr) with
  | some pc => pc.2
  | none => kallocJunk

/-- `evict_page_to_disk`: allocate a swap extent via the bitmap scan, pick the
FIFO victim, copy its page content into a kernel buffer (`copyin`; the code
ignores failure, leaving kalloc junk), write the four 1024-byte chunks to
blocks PSASTART+blockno .. +3, unmap the victim page (without freeing), and
mark its descriptor evicted with the extent start recorded. -/
def evict_page_to_disk (ps : Nat) (s : PState) : PState :=
  let blockno := (psa_scan s.psa).1
  let psa' := (psa_scan s.psa).2
  let v := find_victim s.heap_tracker
  let vaAddr := (s.heap_tracker.getD v hpDefault).addr
  let content := evict_content s
  let d1 := dwrite s.disk (ps + blockno) (pageChunk content 0)
  let d2 := dwrite d1 (ps + blockno + 1) (pageChunk content 1)
  let d3 := dwrite d2 (ps + blockno + 2) (pageChunk content 2)
  let d4 := dwrite d3 (ps + blockno + 3) (pageChunk content 3)
  { s with
      psa := psa'
      disk := d4
      pagetable := fun a => if a = vaAddr then none else s.pagetable a
      heap_tracker := s.heap_tracker.set v
        { s.heap_tracker.getD v hpDefault with startblock := blockno, loaded := true } }

/-- The descriptor scan of `retrieve_page_from_disk`: first entry with
`loaded` set and matching address; yields its start block. -/
def find_swap_slot : List HeapPage → Nat → Option Nat
  | [], _ => none
  | h :: t, a =>
    if h.loaded = true ∧ h.addr = a then some h.startblock else find_swap_slot t a

/-- Freeing a 4-block swap extent in the bitmap. -/
def clear4 (t : List Bool) (b : Nat) : List Bool :=
  (((t.set b false).set (b + 1) false).set (b + 2) false).set (b + 3) false

/-- `retrieve_page_from_disk`: locate the evicted descriptor for `uvaddr`
(releasing its extent in the bitmap when found; when no descriptor matches the
code falls through with startBlockNo = 0 and releases nothing), read the four
blocks into a buffer, and `copyout` the buffer to the (re-mapped) destination
page; a missing destination mapping makes copyout fail, which the code
ignores.  The descriptor itself is left marked evicted. -/
def retrieve_page_from_disk (ps : Nat) (uvaddr : Nat) (s : PState) : PState :=
  let found := find_swap_slot s.heap_tracker uvaddr
  let sb := found.getD 0
  let psa' := match found with
    | some b => clear4 s.psa b
    | none => s.psa
  let buffer := blockBytes (s.disk (ps + sb)) ++ blockBytes (s.disk (ps + sb + 1)) ++
                blockBytes (s.disk (ps + sb + 2)) ++ blockBytes (s.disk (ps + sb + 3))
  { s with
      psa := psa'
      pagetable := fun a =>
        if a = uvaddr then (s.pagetable uvaddr).map (fun pc => (pc.1, buffer))
        else s.pagetable a }

/-- Modelled from the spec: `uvmalloc` (vm.c, not under src/) as invoked
`uvmalloc(pagetable, fa, fa + PGSIZE, perm)` with `fa` page-aligned — the
spec's allocateMappedRange — maps exactly the single page at `fa` with a
freshly allocated frame, zero-filled by the allocation step, and the given
permission flags. -/
def uvmalloc_model (pt : PTable) (fa : Nat) (perm : Nat) : PTable :=
  fun v => if v = fa then some (perm, zeroPage) else pt v

/-! ## Fault Dispatcher, heap path (kernel/pfault.c: page_fault_handler) -/

/-- C-string byte access: bytes past the end of the stored name are the NUL
terminator and its trailing zero bytes. -/
def cstr_byte (s : List Nat) (i : Nat) : Nat := s.getD i 0

/-- C `strncmp(a, b, n)` starting at position `i`. -/
def strncmp (a b : List Nat) : Nat → Nat → Int
  | 0, _ => 0
  | n + 1, i =>
    if cstr_byte a i ≠ cstr_byte b i then (cstr_byte a i : Int) - (cstr_byte b i : Int)
    else if cstr_byte a i = 0 then 0
    else strncmp a b n (i + 1)

/-- C logical negation on int. -/
def cNot (x : Int) : Int := if x = 0 then 1 else 0

/-- The bytes of the string literal in
`strncmp(p->name, "test5-odheap-bi", 16)`. -/
def test5name : List Nat :=
  [116, 101, 115, 116, 53, 45, 111, 100, 104, 101, 97, 112, 45, 98, 105]

/-- The eviction guard
`!strncmp(p->name, "test5-odheap-bi", 16) == 0 && p->resident_heap_pages == MAXRESHEAP`:
by C precedence this is `(!strncmp(...)) == 0 && ...`, true exactly when the
name differs from "test5-odheap-bi" and the resident count is at the
ceiling. -/
def evict_condition (name : List Nat) (resident maxres : Int) : Bool :=
  (cNot (strncmp name test5name 16 0) == 0) && (resident == maxres)

/-- The timestamp-update loop: the first descriptor whose address matches the
faulting page gets `last_load_time := now` (then `break`). -/
def set_last_load_time : List HeapPage → Nat → Nat → List HeapPage
  | [], _, _ => []
  | h :: t, fa, now =>
    if h.addr = fa then { h with last_load_time := now } :: t
    else h :: set_last_load_time t fa now

def decr_resident (s : PState) : PState :=
  { s with resident_heap_pages := s.resident_heap_pages - 1 }

/-- The part of the heap path after the eviction check: map a fresh writable
page at the faulting address (`uvmalloc(p->pagetable, fa, fa + PGSIZE, PTE_W)`,
PTE_W = 4), update the descriptor's last access timestamp, page in from disk
when the descriptor was marked evicted, and count one more resident heap
page. -/
def heap_handle_tail (ps now : Nat) (lfd : Bool) (fa : Nat) (s : PState) : PState :=
  let s1 := { s with pagetable := uvmalloc_model s.pagetable fa 4 }
  let s2 := { s1 with heap_tracker := set_last_load_time s1.heap_tracker fa now }
  let s3 := if lfd then retrieve_page_from_disk ps fa s2 else s2
  { s3 with resident_heap_pages := s3.resident_heap_pages + 1 }

/-- The heap path of `page_fault_handler` from label `heap_handle`: evict (and
pre-decrement the resident count) when the guard fires, then the common tail.
The Bool records whether the Eviction Engine ran. -/
def heap_handle (maxres : Int) (ps now : Nat) (lfd : Bool) (fa : Nat) (s : PState) :
    PState × Bool :=
  if evict_condition s.name s.resident_heap_pages maxres then
    (heap_handle_tail ps now lfd fa (decr_resident (evict_page_to_disk ps s)), true)
  else (heap_handle_tail ps now lfd fa s, false)

theorem evict_resident_unchanged (ps : Nat) (s : PState) :
    (evict_page_to_disk ps s).resident_heap_pages = s.resident_heap_pages := rfl

theorem retrieve_resident_unchanged (ps uvaddr : Nat) (s : PState) :
    (retrieve_page_from_disk ps uvaddr s).resident_heap_pages
      = s.resident_heap_pages := rfl

theorem heap_handle_tail_resident (ps now : Nat) (lfd : Bool) (fa : Nat) (s : PState) :
    (heap_handle_tail ps now lfd fa s).resident_heap_pages
      = s.resident_heap_pages + 1 := by
  cases lfd <;> rfl

/-- C4 counterexample: a process whose name is exactly "test5-odheap-bi", at
its resident ceiling (2 of 2): the dispatcher does NOT invoke the Eviction
Engine (the guard's `!strncmp(...) == 0` is false for this name) and the
resident count rises past the ceiling to 3, refuting "this holds for every
process regardless of its name". -/
theorem c4_counterexample_test5_name :
    (heap_handle 2 1000 5 false 4096
      ⟨test5name, 2, [⟨4096, false, 3, 0⟩], fun _ => none,
        List.replicate 8 false, fun _ => []⟩).2 = false ∧
    (heap_handle 2 1000 5 false 4096
      ⟨test5name, 2, [⟨4096, false, 3, 0⟩], fun _ => none,
        List.replicate 8 false, fun _ => []⟩).1.resident_heap_pages = 3 := by
  constructor <;> rfl

/-- C4 (amended): for every faulting process whose name differs from
"test5-odheap-bi", when the heap path finds the resident-heap-page count at
the ceiling, the dispatcher invokes the Eviction Engine and decrements the
resident count by one before running the mapping tail (fresh page at the
faulting address, timestamp update, optional page-in, count increment): the
victim's descriptor is marked evicted and the final resident count is back at
the ceiling.  For a process named "test5-odheap-bi" the guard is false and no
eviction happens. -/
theorem c4_evict_at_ceiling (maxres : Int) (ps now : Nat) (lfd : Bool) (fa : Nat)
    (s : PState)
    (hn : strncmp s.name test5name 16 0 ≠ 0)
    (hr : s.resident_heap_pages = maxres)
    (hv : find_victim s.heap_tracker < s.heap_tracker.length) :
    heap_handle maxres ps now lfd fa s
      = (heap_handle_tail ps now lfd fa (decr_resident (evict_page_to_disk ps s)), true) ∧
    (decr_resident (evict_page_to_disk ps s)).resident_heap_pages = maxres - 1 ∧
    ((evict_page_to_disk ps s).heap_tracker.getD (find_victim s.heap_tracker)
        hpDefault).loaded = true ∧
    (heap_handle maxres ps now lfd fa s).1.resident_heap_pages = maxres := by
  have hcond : evict_condition s.name s.resident_heap_pages maxres = true := by
    simp [evict_condition, cNot, hn, hr]
  have h1 : heap_handle maxres ps now lfd fa s
      = (heap_handle_tail ps now lfd fa (decr_resident (evict_page_to_disk ps s)), true) := by
    rw [heap_handle, if_pos hcond]
  have h2 : (decr_resident (evict_page_to_disk ps s)).resident_heap_pages = maxres - 1 := by
    rw [decr_resident]
    rw [evict_resident_unchanged, hr]
  refine ⟨h1, h2, ?_, ?_⟩
  · show ((s.heap_tracker.set (find_victim s.heap_tracker)
        { s.heap_tracker.getD (find_victim s.heap_tracker) hpDefault with
            startblock := (psa_scan s.psa).1, loaded := true }).getD
        (find_victim s.heap_tracker) hpDefault).loaded = true
    rw [getD_set_self _ _ _ _ hv]
  · rw [h1]
    show (heap_handle_tail ps now lfd fa
      (decr_resident (evict_page_to_disk ps s))).resident_heap_pages = maxres
    rw [heap_handle_tail_resident, h2]
    omega

/-- C4 witness: a process named "init", at ceiling 2: eviction runs, the
count dips to 1 and ends back at 2, and the single victim descriptor is
marked evicted. -/
theorem c4_witness :
    heap_handle 2 1000 5 false 4096
        ⟨[105, 110, 105, 116], 2, [⟨4096, false, 3, 0⟩],
          fun a => if a = 4096 then some (4, List.replicate 4096 1) else none,
          List.replicate 8 false, fun _ => []⟩
      = (heap_handle_tail 1000 5 false 4096
          (decr_resident (evict_page_to_disk 1000
            ⟨[105, 110, 105, 116], 2, [⟨4096, false, 3, 0⟩],
              fun a => if a = 4096 then some (4, List.replicate 4096 1) else none,
              List.replicate 8 false, fun _ => []⟩)), true) ∧
    (decr_resident (evict_page_to_disk 1000
        ⟨[105, 110, 105, 116], 2, [⟨4096, false, 3, 0⟩],
          fun a => if a = 4096 then some (4, List.replicate 4096 1) else none,
          List.replicate 8 false, fun _ => []⟩)).resident_heap_pages = 2 - 1 ∧
    ((evict_page_to_disk 1000
        ⟨[105, 110, 105, 116], 2, [⟨4096, false, 3, 0⟩],
          fun a => if a = 4096 then some (4, List.replicate 4096 1) else none,
          List.replicate 8 false, fun _ => []⟩).heap_tracker.getD
        (find_victim [⟨4096, false, 3, 0⟩]) hpDefault).loaded = true ∧
    (heap_handle 2 1000 5 false 4096
        ⟨[105, 110, 105, 116], 2, [⟨4096, false, 3, 0⟩],
          fun a => if a = 4096 then some (4, List.replicate 4096 1) else none,
          List.replicate 8 false, fun _ => []⟩).1.resident_heap_pages = 2 :=
  c4_evict_at_ceiling 2 1000 5 false 4096
    ⟨[105, 110, 105, 116], 2, [⟨4096, false, 3, 0⟩],
      fun a => if a = 4096 then some (4, List.replicate 4096 1) else none,
      List.replicate 8 false, fun _ => []⟩
    (by decide) rfl (by decide)

/-! ## Claim C5 — evict / page-in round trip -/

theorem dwrite_at (d : Nat → List Nat) (k : Nat) (v : List Nat) : dwrite d k v k = v := by
  simp [dwrite]

theorem dwrite_ne (d : Nat → List Nat) (k : Nat) (v : List Nat) (j : Nat) (h : j ≠ k) :
    dwrite d k v j = d j := by
  simp [dwrite, h]

theorem blockBytes_pageChunk (c : List Nat) (i : Nat) :
    blockBytes (pageChunk c i) = pageChunk c i := by
  simp [blockBytes, pageChunk, List.take_take]

/-- Reassembling the four 1024-byte chunks of a 4096-byte page gives the page
back. -/
theorem pageChunks_append_assoc (c : List Nat) (h : c.length = 4096) :
    pageChunk c 0 ++ (pageChunk c 1 ++ (pageChunk c 2 ++ pageChunk c 3)) = c := by
  have e0 : pageChunk c 0 = c.take 1024 := by simp [pageChunk]
  have e1 : pageChunk c 1 = (c.drop 1024).take 1024 := by norm_num [pageChunk]
  have e2 : pageChunk c 2 = ((c.drop 1024).drop 1024).take 1024 := by
    norm_num [pageChunk, List.drop_drop]
  have e3 : pageChunk c 3 = (((c.drop 1024).drop 1024).drop 1024).take 1024 := by
    norm_num [pageChunk, List.drop_drop]
  have l3 : (((c.drop 1024).drop 1024).drop 1024).length = 1024 := by simp [h]
  have e3' : pageChunk c 3 = ((c.drop 1024).drop 1024).drop 1024 := by
    rw [e3]
    exact List.take_of_length_le (le_of_eq l3)
  rw [e0, e1, e2, e3', List.take_append_drop, List.take_append_drop,
      List.take_append_drop]

/-- The same reassembly fact in the parse of the source expression. -/
theorem pageChunks_append (c : List Nat) (h : c.length = 4096) :
    pageChunk c 0 ++ pageChunk c 1 ++ pageChunk c 2 ++ pageChunk c 3 = c := by
  have := pageChunks_append_assoc c h
  simpa [List.append_assoc] using this

theorem psa_scan_go_length (rest : List Bool) (i bn fb : Nat) (orig : List Bool) :
    ((psa_scan_go rest i bn fb orig).2).length = orig.length := by
  induction rest generalizing i bn fb with
  | nil => rfl
  | cons b bs ih =>
    rw [psa_scan_go]
    split
    · exact ih _ _ _
    · split
      · split
        · simp [mark4]
        · exact ih _ _ _
      · split
        · simp [mark4]
        · exact ih _ _ _

theorem psa_scan_length (t : List Bool) : ((psa_scan t).2).length = t.length :=
  psa_scan_go_length t 0 0 0 t

theorem clear4_getD (t : List Bool) (b i : Nat) (hi : i < 4) (hb : b + 3 < t.length) :
    (clear4 t b).getD (b + i) true = false := by
  have h0 : b < t.length := by omega
  have h1 : b + 1 < (t.set b false).length := by simp; omega
  have h2 : b + 2 < ((t.set b false).set (b + 1) false).length := by simp; omega
  have h3 : b + 3 < (((t.set b false).set (b + 1) false).set (b + 2) false).length := by
    simp
    omega
  interval_cases i
  · rw [clear4, getD_set_ne _ _ _ _ _ (by omega), getD_set_ne _ _ _ _ _ (by omega),
        getD_set_ne _ _ _ _ _ (by omega)]
    simpa using getD_set_self t b false true h0
  · rw [clear4, getD_set_ne _ _ _ _ _ (by omega), getD_set_ne _ _ _ _ _ (by omega)]
    exact getD_set_self _ _ _ _ h1
  · rw [clear4, getD_set_ne _ _ _ _ _ (by omega)]
    exact getD_set_self _ _ _ _ h2
  · rw [clear4]
    exact getD_set_self _ _ _ _ h3

theorem find_swap_slot_set (ht : List HeapPage) (v b va : Nat)
    (hv : v < ht.length)
    (hva : (ht.getD v hpDefault).addr = va)
    (huniq : ∀ j, j < ht.length → j ≠ v → (ht.getD j hpDefault).addr ≠ va) :
    find_swap_slot
      (ht.set v { ht.getD v hpDefault with startblock := b, loaded := true }) va
      = some b := by
  induction ht generalizing v with
  | nil => simp at hv
  | cons x t ih =>
    cases v with
    | zero =>
      simp only [List.getD_cons_zero] at hva ⊢
      rw [List.set_cons_zero, find_swap_slot, if_pos ⟨rfl, hva⟩]
    | succ v' =>
      simp only [List.getD_cons_succ] at hva
      rw [List.set_cons_succ, find_swap_slot,
          if_neg (fun hc => (huniq 0 (by simp) (by omega)) (by simpa using hc.2))]
      exact ih v' (by simpa using hv) hva
        (fun j hj hne => by simpa using huniq (j + 1) (by simpa using hj) (by omega))

/-- The dispatcher sequence exercised by the round-trip property: evict a
resident heap page, re-map the faulting address with a fresh zero page
(`uvmalloc` with PTE_W), then page the content back in from the swap
extent. -/
def evict_remap_retrieve (ps va : Nat) (s : PState) : PState :=
  retrieve_page_from_disk ps va
    { evict_page_to_disk ps s with
        pagetable := uvmalloc_model (evict_page_to_disk ps s).pagetable va 4 }

theorem evict_disk_read0 (ps : Nat) (s : PState) :
    (evict_page_to_disk ps s).disk (ps + (psa_scan s.psa).1)
      = pageChunk (evict_content s) 0 := by
  show dwrite _ (ps + (psa_scan s.psa).1 + 3) _ _ = _
  rw [dwrite_ne _ _ _ _ (by omega), dwrite_ne _ _ _ _ (by omega),
      dwrite_ne _ _ _ _ (by omega), dwrite_at]

theorem evict_disk_read1 (ps : Nat) (s : PState) :
    (evict_page_to_disk ps s).disk (ps + (psa_scan s.psa).1 + 1)
      = pageChunk (evict_content s) 1 := by
  show dwrite _ (ps + (psa_scan s.psa).1 + 3) _ _ = _
  rw [dwrite_ne _ _ _ _ (by omega), dwrite_ne _ _ _ _ (by omega), dwrite_at]

theorem evict_disk_read2 (ps : Nat) (s : PState) :
    (evict_page_to_disk ps s).disk (ps + (psa_scan s.psa).1 + 2)
      = pageChunk (evict_content s) 2 := by
  show dwrite _ (ps + (psa_scan s.psa).1 + 3) _ _ = _
  rw [dwrite_ne _ _ _ _ (by omega), dwrite_at]

theorem evict_disk_read3 (ps : Nat) (s : PState) :
    (evict_page_to_disk ps s).disk (ps + (psa_scan s.psa).1 + 3)
      = pageChunk (evict_content s) 3 := by
  show dwrite _ (ps + (psa_scan s.psa).1 + 3) _ _ = _
  rw [dwrite_at]

theorem evict_psa (ps : Nat) (s : PState) :
    (evict_page_to_disk ps s).psa = (psa_scan s.psa).2 := rfl

/-- C5: round trip.  For a state whose FIFO victim descriptor addresses a
mapped page `va` of 4096 bytes (and heap descriptors carry distinct
addresses), evicting to the allocated swap extent, re-mapping `va` with a
fresh zero page, and paging back in restores the exact original byte content
at `va`, and the page-in releases all four blocks of the swap extent in the
bitmap. -/
theorem c5_evict_pagein_roundtrip (ps va pm : Nat) (content : List Nat) (s : PState)
    (hva : (s.heap_tracker.getD (find_victim s.heap_tracker) hpDefault).addr = va)
    (hv : find_victim s.heap_tracker < s.heap_tracker.length)
    (hpt : s.pagetable va = some (pm, content))
    (hlen : content.length = 4096)
    (huniq : ∀ j, j < s.heap_tracker.length → j ≠ find_victim s.heap_tracker →
      (s.heap_tracker.getD j hpDefault).addr ≠ va)
    (hb : (psa_scan s.psa).1 + 3 < s.psa.length) :
    (evict_remap_retrieve ps va s).pagetable va = some (4, content) ∧
    (∀ i, i < 4 →
      (evict_remap_retrieve ps va s).psa.getD ((psa_scan s.psa).1 + i) true
        = false) := by
  have hcon : evict_content s = content := by
    rw [evict_content, hva, hpt]
  have hfss : find_swap_slot (evict_page_to_disk ps s).heap_tracker va
      = some ((psa_scan s.psa).1) :=
    find_swap_slot_set s.heap_tracker (find_victim s.heap_tracker)
      ((psa_scan s.psa).1) va hv hva huniq
  constructor
  · simp only [evict_remap_retrieve, retrieve_page_from_disk]
    rw [hfss]
    dsimp only [Option.getD]
    rw [if_pos trivial]
    simp only [uvmalloc_model]
    rw [if_pos trivial]
    simp only [Option.map_some']
    rw [evict_disk_read0, evict_disk_read1, evict_disk_read2, evict_disk_read3,
        blockBytes_pageChunk, blockBytes_pageChunk, blockBytes_pageChunk,
        blockBytes_pageChunk, hcon]
    rw [pageChunks_append content hlen]
  · intro i hi
    simp only [evict_remap_retrieve, retrieve_page_from_disk]
    rw [hfss]
    rw [evict_psa]
    exact clear4_getD _ _ i hi (by rw [psa_scan_length]; exact hb)


/-- C5 witness: a single resident heap page at 8192 holding 4096 bytes of
value 2, an empty 8-block swap bitmap: round trip restores the content and
frees blocks 0..3. -/
theorem c5_witness :
    (evict_remap_retrieve 1000 8192
        ⟨[104, 105], 1, [⟨8192, false, 1, 0⟩],
          fun a => if a = 8192 then some (4, List.replicate 4096 2) else none,
          List.replicate 8 false, fun _ => []⟩).pagetable 8192
      = some (4, List.replicate 4096 2) ∧
    (∀ i, i < 4 →
      (evict_remap_retrieve 1000 8192
          ⟨[104, 105], 1, [⟨8192, false, 1, 0⟩],
            fun a => if a = 8192 then some (4, List.replicate 4096 2) else none,
            List.replicate 8 false, fun _ => []⟩).psa.getD
        ((psa_scan (⟨[104, 105], 1, [⟨8192, false, 1, 0⟩],
            fun a => if a = 8192 then some (4, List.replicate 4096 2) else none,
            List.replicate 8 false, fun _ => []⟩ : PState).psa).1 + i) true
        = false) := by
  have h0 : find_victim [(⟨8192, false, 1, 0⟩ : HeapPage)] = 0 := by decide
  refine c5_evict_pagein_roundtrip 1000 8192 4 (List.replicate 4096 2)
    ⟨[104, 105], 1, [⟨8192, false, 1, 0⟩],
      fun a => if a = 8192 then some (4, List.replicate 4096 2) else none,
      List.replicate 8 false, fun _ => []⟩
    (by rw [h0]; rfl) (by decide) rfl (by rw [List.length_replicate])
    (by intro j hj hne
        rw [h0] at hne
        exact absurd (by simpa using hj) hne)
    (by decide)

/-! ## Program-image path (kernel/pfault.c: page_fault_handler, ELF branch)

The handler walks all program headers of the executable; for the (unique)
header whose [vaddr, vaddr + memsz) contains the page-aligned faulting
address it calls `uvmalloc(pagetable, fa, fa + PGSIZE, flags2perm(ph.flags))`
— mapping exactly the faulting page, zero-filled — and then
`loadseg(pagetable, ph.vaddr, ip, ph.off, ph.filesz)`, i.e. the loader is
invoked over the segment's WHOLE file extent starting at the segment's base
virtual address, not just the faulting page.  `loadseg` and `flags2perm`
live in exec.c (not under src/): `flags2perm` stays an abstract parameter
`f2p`, and `loadseg` is modelled from the spec. -/

/-- Base address of the page containing `a` (stval >> 12 << 12). -/
def pageBase (a : Nat) : Nat := a / 4096 * 4096

structure ProgHdr where
  vaddr : Nat
  memsz : Nat
  off : Nat
  filesz : Nat
  flags : Nat
deriving DecidableEq

/-- One byte stored to user memory: lands in the containing page's content if
that page is mapped, and is dropped otherwise (a write through an absent
mapping cannot change any mapped page). -/
def write_byte (pt : PTable) (a : Nat) (v : Nat) : PTable :=
  fun p =>
    if p = pageBase a then (pt p).map (fun pc => (pc.1, pc.2.set (a % 4096) v))
    else pt p

/-- Modelled from the spec: `loadseg` (exec.c, not under src/) — the spec's
`readSegmentBytes(inode, fileOffset, dest, length)`: copies `n` bytes of the
executable file starting at offset `off` into user memory starting at virtual
address `va`. -/
def loadseg_model (pt : PTable) (va : Nat) (file : Nat → Nat) (off : Nat) :
    Nat → PTable
  | 0 => pt
  | n + 1 => write_byte (loadseg_model pt va file off n) (va + n) (file (off + n))

/-- `faulting_addr >= ph.vaddr && faulting_addr < (ph.vaddr + ph.memsz)`. -/
def ph_matches (ph : ProgHdr) (fa : Nat) : Bool :=
  ph.vaddr ≤ fa && fa < ph.vaddr + ph.memsz

/-- The program-header loop of the ELF branch: each matching header triggers
`uvmalloc` of the single faulting page followed by `loadseg` over the
segment's file extent. -/
def image_path (f2p : Nat → Nat) (file : Nat → Nat) (fa : Nat) :
    List ProgHdr → PTable → PTable
  | [], pt => pt
  | ph :: rest, pt =>
    image_path f2p file fa rest
      (if ph_matches ph fa then
        loadseg_model (uvmalloc_model pt fa (f2p ph.flags)) ph.vaddr file ph.off ph.filesz
      else pt)

theorem getD_replicate {α : Type} (a d : α) (n i : Nat) (h : i < n) :
    (List.replicate n a).getD i d = a := by
  induction n generalizing i with
  | zero => omega
  | succ m ih =>
    cases i with
    | zero => simp [List.replicate]
    | succ j =>
      simp only [List.replicate, List.getD_cons_succ]
      exact ih j (by omega)

theorem pageBase_add (fa n : Nat) (hal : fa % 4096 = 0) (hn : n < 4096) :
    pageBase (fa + n) = fa := by
  unfold pageBase
  omega

theorem mod_add_page (fa n : Nat) (hal : fa % 4096 = 0) (hn : n < 4096) :
    (fa + n) % 4096 = n := by
  omega

theorem loadseg_isSome (pt : PTable) (va : Nat) (file : Nat → Nat) (off n p : Nat) :
    (loadseg_model pt va file off n p).isSome = (pt p).isSome := by
  induction n with
  | zero => rfl
  | succ m ih =>
    rw [loadseg_model, write_byte]
    by_cases hp : p = pageBase (va + m)
    · rw [if_pos hp]
      simp [ih]
    · rw [if_neg hp]
      exact ih

theorem loadseg_pres_perm (pt : PTable) (va : Nat) (file : Nat → Nat) (off n p : Nat)
    (pm : Nat) (c : List Nat) (h : pt p = some (pm, c)) :
    ∃ c', loadseg_model pt va file off n p = some (pm, c') := by
  induction n with
  | zero => exact ⟨c, h⟩
  | succ m ih =>
    obtain ⟨c', hc'⟩ := ih
    rw [loadseg_model, write_byte]
    by_cases hp : p = pageBase (va + m)
    · rw [if_pos hp]
      exact ⟨c'.set ((va + m) % 4096) (file (off + m)), by rw [hc']; rfl⟩
    · rw [if_neg hp]
      exact ⟨c', hc'⟩

theorem loadseg_other (pt : PTable) (va : Nat) (file : Nat → Nat) (off n p : Nat)
    (h : ∀ k, k < n → pageBase (va + k) ≠ p) :
    loadseg_model pt va file off n p = pt p := by
  induction n with
  | zero => rfl
  | succ m ih =>
    rw [loadseg_model, write_byte,
        if_neg (fun hc => h m (by omega) hc.symm)]
    exact ih (fun k hk => h k (by omega))

theorem loadseg_content (pt : PTable) (fa : Nat) (file : Nat → Nat) (off : Nat)
    (hal : fa % 4096 = 0) (pm : Nat) (c0 : List Nat) (h : pt fa = some (pm, c0))
    (hlen : c0.length = 4096) :
    ∀ n, n ≤ 4096 →
      ∃ c, loadseg_model pt fa file off n fa = some (pm, c) ∧ c.length = 4096 ∧
        ∀ j, j < 4096 → c.getD j 7 = if j < n then file (off + j) else c0.getD j 7 := by
  intro n
  induction n with
  | zero =>
    intro _
    exact ⟨c0, h, hlen, fun j hj => by simp⟩
  | succ m ih =>
    intro hm
    obtain ⟨c, hc, hclen, hcj⟩ := ih (by omega)
    rw [loadseg_model, write_byte, if_pos (pageBase_add fa m hal (by omega)).symm, hc]
    refine ⟨c.set ((fa + m) % 4096) (file (off + m)), rfl, by simp [hclen], ?_⟩
    rw [mod_add_page fa m hal (by omega)]
    intro j hj
    by_cases hjm : j = m
    · subst hjm
      rw [getD_set_self c j _ 7 (by omega), if_pos (by omega)]
    · rw [getD_set_ne c m j _ 7 (fun hc2 => hjm hc2.symm), hcj j hj]
      by_cases hlt : j < m
      · rw [if_pos hlt, if_pos (by omega)]
      · rw [if_neg hlt, if_neg (by omega)]

theorem image_path_no_match (f2p file : Nat → Nat) (fa : Nat) (phs : List ProgHdr)
    (pt : PTable) (h : ∀ ph ∈ phs, ph_matches ph fa = false) :
    image_path f2p file fa phs pt = pt := by
  induction phs generalizing pt with
  | nil => rfl
  | cons ph rest ih =>
    rw [image_path, if_neg (by simp [h ph (by simp)])]
    exact ih pt (fun p hp => h p (by simp [hp]))

theorem image_path_append (f2p file : Nat → Nat) (fa : Nat) (l1 l2 : List ProgHdr)
    (pt : PTable) (h : ∀ ph ∈ l1, ph_matches ph fa = false) :
    image_path f2p file fa (l1 ++ l2) pt = image_path f2p file fa l2 pt := by
  induction l1 generalizing pt with
  | nil => rfl
  | cons ph rest ih =>
    rw [List.cons_append, image_path, if_neg (by simp [h ph (by simp)])]
    exact ih pt (fun p hp => h p (by simp [hp]))

/-- C9 counterexample: a two-page segment (vaddr 4096, memsz 8192, filesz 2)
whose first page is already mapped holding bytes of value 7; fault at 8192
(the segment's second page).  The handler calls the segment loader over the
whole file extent starting at the segment base, so byte 0 of the OTHER page
4096 is overwritten with the file byte 9 — refuting "loads from disk only
that page's bytes; no other page of the address space is mapped or
written". -/
theorem c9_counterexample_loads_other_page :
    ((image_path (fun f => f) (fun _ => 9) 8192 [⟨4096, 8192, 0, 2, 3⟩]
        (fun a => if a = 4096 then some (5, List.replicate 4096 7) else none)) 4096).map
      (fun pc => pc.2.getD 0 7) = some 9 ∧
    (((fun a => if a = 4096 then some ((5 : Nat), List.replicate 4096 7) else none)
        4096 : Option (Nat × List Nat)).map (fun pc => pc.2.getD 0 7)) = some 7 := by
  constructor
  · have e : (image_path (fun f => f) (fun _ => 9) 8192 [⟨4096, 8192, 0, 2, 3⟩]
        (fun a => if a = 4096 then some (5, List.replicate 4096 7) else none)) 4096
        = some (5, ((List.replicate 4096 7).set 0 9).set 1 9) := rfl
    rw [e, Option.map_some']
    show some ((((List.replicate 4096 7).set 0 9).set 1 9).getD 0 7) = some 9
    rw [getD_set_ne _ _ _ _ _ (by omega),
        getD_set_self _ _ _ _ (by rw [List.length_replicate]; omega)]
  · show some ((List.replicate 4096 7).getD 0 7) = some 7
    rw [getD_replicate 7 7 4096 0 (by omega)]

/-- C9 (amended): for a page-aligned faulting address contained in exactly one
program header's virtual range, the ELF branch (with `uvmalloc` and `loadseg`
modelled from the spec, as they live outside src/) maps exactly one new page —
the faulting one — with the segment's translated permission flags; and in the
case where the segment starts at the faulting page and its file size is at
most one page, the loader touches no other mapped page and the faulting
page's content is the segment's file bytes up to filesz with every byte
beyond filesz zero (from the zero-filling allocation); for segments whose
file extent reaches outside the faulting page, bytes of other pages are also
loaded (see the counterexample). -/
theorem c9_demand_load_single_page (f2p file : Nat → Nat) (fa : Nat)
    (l1 l2 : List ProgHdr) (ph : ProgHdr) (pt : PTable)
    (hm : ph_matches ph fa = true)
    (h1 : ∀ p ∈ l1, ph_matches p fa = false)
    (h2 : ∀ p ∈ l2, ph_matches p fa = false) :
    (∀ va, va ≠ fa →
      ((image_path f2p file fa (l1 ++ ph :: l2) pt va).isSome = (pt va).isSome)) ∧
    (∃ c, image_path f2p file fa (l1 ++ ph :: l2) pt fa = some (f2p ph.flags, c)) ∧
    (ph.vaddr = fa → ph.filesz ≤ 4096 → fa % 4096 = 0 →
      (∀ va, va ≠ fa → image_path f2p file fa (l1 ++ ph :: l2) pt va = pt va) ∧
      (∃ c, image_path f2p file fa (l1 ++ ph :: l2) pt fa = some (f2p ph.flags, c) ∧
        c.length = 4096 ∧
        ∀ j, j < 4096 →
          c.getD j 7 = if j < ph.filesz then file (ph.off + j) else 0)) := by
  have hR : image_path f2p file fa (l1 ++ ph :: l2) pt
      = loadseg_model (uvmalloc_model pt fa (f2p ph.flags)) ph.vaddr file ph.off
          ph.filesz := by
    rw [image_path_append f2p file fa l1 (ph :: l2) pt h1, image_path, if_pos hm]
    exact image_path_no_match f2p file fa l2 _ h2
  rw [hR]
  have hufa : uvmalloc_model pt fa (f2p ph.flags) fa = some (f2p ph.flags, zeroPage) := by
    rw [uvmalloc_model, if_pos rfl]
  refine ⟨?_, ?_, ?_⟩
  · intro va hva
    rw [loadseg_isSome, uvmalloc_model, if_neg hva]
  · exact loadseg_pres_perm _ ph.vaddr file ph.off ph.filesz fa (f2p ph.flags)
      zeroPage hufa
  · intro hvaddr hfs hal
    subst hvaddr
    constructor
    · intro va hva
      rw [loadseg_other _ _ file ph.off ph.filesz va
          (fun k hk => by rw [pageBase_add ph.vaddr k hal (by omega)]; exact hva ∘ Eq.symm)]
      rw [uvmalloc_model, if_neg hva]
    · obtain ⟨c, hc, hclen, hcj⟩ :=
        loadseg_content (uvmalloc_model pt ph.vaddr (f2p ph.flags)) ph.vaddr file ph.off
          hal (f2p ph.flags) zeroPage hufa (by rw [zeroPage, List.length_replicate])
          ph.filesz hfs
      refine ⟨c, hc, hclen, fun j hj => ?_⟩
      rw [hcj j hj]
      by_cases hlt : j < ph.filesz
      · rw [if_pos hlt, if_pos hlt]
      · rw [if_neg hlt, if_neg hlt, zeroPage, getD_replicate 0 7 4096 j hj]

/-- C9 witness: the amended theorem at a one-segment executable (vaddr 4096,
memsz 4096, file size 400, flags 3), faulting at 4096 on an empty address
space with file bytes of value 9: only page 4096 is mapped, bytes 0..399 come
from the file and bytes 400..4095 are zero. -/
theorem c9_witness :
    (∀ va, va ≠ 4096 →
      ((image_path (fun f => f) (fun _ => 9) 4096 [⟨4096, 4096, 0, 400, 3⟩]
          (fun _ => none) va).isSome
        = ((fun _ => (none : Option (Nat × List Nat))) va).isSome)) ∧
    (∃ c, image_path (fun f => f) (fun _ => 9) 4096 [⟨4096, 4096, 0, 400, 3⟩]
        (fun _ => none) 4096 = some (3, c)) ∧
    ((4096 : Nat) = 4096 → (400 : Nat) ≤ 4096 → (4096 : Nat) % 4096 = 0 →
      (∀ va, va ≠ 4096 →
        image_path (fun f => f) (fun _ => 9) 4096 [⟨4096, 4096, 0, 400, 3⟩]
          (fun _ => none) va = none) ∧
      (∃ c, image_path (fun f => f) (fun _ => 9) 4096 [⟨4096, 4096, 0, 400, 3⟩]
          (fun _ => none) 4096 = some (3, c) ∧ c.length = 4096 ∧
        ∀ j, j < 4096 → c.getD j 7 = if j < 400 then 9 else 0)) :=
  c9_demand_load_single_page (fun f => f) (fun _ => 9) 4096 [] []
    ⟨4096, 4096, 0, 400, 3⟩ (fun _ => none) (by decide) (by simp) (by simp)
